import Mathlib

/-!
Verification development for the PC function-graphing program
(lexer → parser → AST → evaluator → PostScript renderer).

The C sources are shallowly embedded:
* C `double` values in the evaluator and in the renderer state machine
  are modelled by `FloatV`: an exact rational together with the IEEE
  special values `nan`, `+inf`, `-inf`.  Rounding and overflow of
  finite doubles are not modelled there (exact arithmetic); those
  claims only depend on comparisons, NaN propagation and the
  special-value branches, which are preserved.  The sampling-loop
  claim is different: its subject is binary64 accumulation itself, so
  it is settled against the exact round-to-nearest-even binary64 model
  `roundF64` / `fp64Add` at the end of the file.
* the transcendental library functions (`sin`, `log`, `pow`, ...) are
  external to the repository; `evaluate` is parameterised over a
  `MathLib` record supplying them.  Every theorem below that touches
  `evaluate` holds for every `MathLib`, i.e. does not depend on the
  unmodelled library behaviour.
* C functions that print a diagnostic and call `exit(2)` are modelled
  with `Except`: `.error e` stands for process termination.
-/

/-- Model of a C `double`: `nan`, the two infinities, or an exact finite
value.  `Rat` has a single zero, so the IEEE `-0.0` is identified with
`+0.0`; none of the claims distinguishes them. -/
inductive FloatV where
  | nan
  | pinf
  | ninf
  | fin (q : ℚ)
deriving DecidableEq, Repr

namespace FloatV

/-- C `isnan`. -/
def isnan : FloatV → Bool
  | nan => true
  | _ => false

/-- IEEE negation. -/
def neg : FloatV → FloatV
  | nan => nan
  | pinf => ninf
  | ninf => pinf
  | fin q => fin (-q)

/-- IEEE addition (NaN propagates; `+inf + -inf = NaN`). -/
def add : FloatV → FloatV → FloatV
  | nan, _ => nan
  | _, nan => nan
  | pinf, ninf => nan
  | ninf, pinf => nan
  | pinf, _ => pinf
  | _, pinf => pinf
  | ninf, _ => ninf
  | _, ninf => ninf
  | fin a, fin b => fin (a + b)

/-- IEEE subtraction. -/
def sub (x y : FloatV) : FloatV := add x (neg y)

/-- IEEE multiplication (`inf * 0 = NaN`). -/
def mul : FloatV → FloatV → FloatV
  | nan, _ => nan
  | _, nan => nan
  | pinf, pinf => pinf
  | pinf, ninf => ninf
  | ninf, pinf => ninf
  | ninf, ninf => pinf
  | pinf, fin q => if 0 < q then pinf else if q < 0 then ninf else nan
  | fin q, pinf => if 0 < q then pinf else if q < 0 then ninf else nan
  | ninf, fin q => if 0 < q then ninf else if q < 0 then pinf else nan
  | fin q, ninf => if 0 < q then ninf else if q < 0 then pinf else nan
  | fin a, fin b => fin (a * b)

/-- IEEE division (`x/0 = ±inf` for `x ≠ 0`, `0/0 = NaN`, `inf/inf = NaN`).
The single rational zero plays the role of `+0.0`. -/
def div : FloatV → FloatV → FloatV
  | nan, _ => nan
  | _, nan => nan
  | pinf, pinf => nan
  | pinf, ninf => nan
  | ninf, pinf => nan
  | ninf, ninf => nan
  | pinf, fin q => if q < 0 then ninf else pinf
  | ninf, fin q => if q < 0 then pinf else ninf
  | fin _, pinf => fin 0
  | fin _, ninf => fin 0
  | fin a, fin b =>
    if b = 0 then
      if a = 0 then nan else if 0 < a then pinf else ninf
    else fin (a / b)

/-- IEEE `<=` (false whenever either side is NaN). -/
def le : FloatV → FloatV → Bool
  | nan, _ => false
  | _, nan => false
  | ninf, _ => true
  | _, ninf => false
  | pinf, pinf => true
  | pinf, fin _ => false
  | fin _, pinf => true
  | fin a, fin b => a ≤ b

/-- IEEE `<` (false whenever either side is NaN). -/
def lt : FloatV → FloatV → Bool
  | nan, _ => false
  | _, nan => false
  | _, ninf => false
  | ninf, _ => true
  | pinf, _ => false
  | fin _, pinf => true
  | fin a, fin b => a < b

/-- IEEE `>`. -/
def gt (x y : FloatV) : Bool := lt y x

/-- IEEE `==` (false whenever either side is NaN). -/
def eqv : FloatV → FloatV → Bool
  | nan, _ => false
  | _, nan => false
  | pinf, pinf => true
  | ninf, ninf => true
  | fin a, fin b => a = b
  | _, _ => false

/-- C `fabs`. -/
def fabs : FloatV → FloatV
  | nan => nan
  | pinf => pinf
  | ninf => pinf
  | fin q => fin |q|

end FloatV

/-- AST node, from `parser.h` / `parser.c`:
`NODE_NUM`, `NODE_ID`, `NODE_FUNC`, `NODE_OP`.  A `NODE_OP` has a
nullable left child (`Option Node`), exactly as the C struct stores a
possibly-NULL `left` pointer; `right` is always set by the parser. -/
inductive Node where
  | num (v : ℚ)
  | id (name : String)
  | func (name : String) (arg : Node)
  | op (c : Char) (left : Option Node) (right : Node)
deriving Repr

/-- The transcendental functions of `libm` used by `evaluate`.  They are
external to the repository, so `evaluate` is parameterised over them;
all theorems about `evaluate` hold for every `MathLib`. -/
structure MathLib where
  sin : FloatV → FloatV
  cos : FloatV → FloatV
  tan : FloatV → FloatV
  asin : FloatV → FloatV
  acos : FloatV → FloatV
  atan : FloatV → FloatV
  sinh : FloatV → FloatV
  cosh : FloatV → FloatV
  tanh : FloatV → FloatV
  exp : FloatV → FloatV
  log : FloatV → FloatV
  log10 : FloatV → FloatV
  pow : FloatV → FloatV → FloatV

/-- A dummy instantiation of `MathLib` (used only to evaluate theorems
with abstract `MathLib` at concrete inputs). -/
def trivialMathLib : MathLib :=
  { sin := fun _ => .fin 0, cos := fun _ => .fin 0, tan := fun _ => .fin 0
    asin := fun _ => .fin 0, acos := fun _ => .fin 0, atan := fun _ => .fin 0
    sinh := fun _ => .fin 0, cosh := fun _ => .fin 0, tanh := fun _ => .fin 0
    exp := fun _ => .fin 0, log := fun _ => .fin 0, log10 := fun _ => .fin 0
    pow := fun _ _ => .fin 0 }

/-- The ways `evaluate` in `src/evaluator.c` terminates the process
(each prints a diagnostic and calls `exit(2)`), plus the
NULL-dereference that happens when a `NODE_OP` has a NULL left child
and an operator other than the unary minus. -/
inductive EvalErr where
  | logNonPositive
  | divZero
  | unknownFunc
  | unknownOp
  | nullLeft
deriving DecidableEq, Repr

/-- Shallow embedding of `evaluate` from `src/evaluator.c` (lines
25-101).  `.error e` models the C code printing a diagnostic and
calling `exit(2)` (resp. dereferencing the NULL left child for
`nullLeft`); `.ok v` models returning the double `v`. -/
def evaluate (m : MathLib) : Node → FloatV → Except EvalErr FloatV
  | .num v, _ => .ok (.fin v)
  | .id _, x => .ok x
  | .func name arg, x => do
    let a ← evaluate m arg x
    if name = "sin" then .ok (m.sin a)
    else if name = "cos" then .ok (m.cos a)
    else if name = "tan" then .ok (m.tan a)
    else if name = "abs" then .ok (FloatV.fabs a)
    else if name = "ln" then
      if FloatV.le a (.fin 0) then .error .logNonPositive else .ok (m.log a)
    else if name = "log" then
      if FloatV.le a (.fin 0) then .error .logNonPositive else .ok (m.log10 a)
    else if name = "asin" then .ok (m.asin a)
    else if name = "acos" then .ok (m.acos a)
    else if name = "atan" then .ok (m.atan a)
    else if name = "sinh" then .ok (m.sinh a)
    else if name = "cosh" then .ok (m.cosh a)
    else if name = "tanh" then .ok (m.tanh a)
    else if name = "exp" then .ok (m.exp a)
    else .error .unknownFunc
  | .op c left right, x =>
    match left with
    | none => do
      let r ← evaluate m right x
      if c = '-' then .ok (FloatV.neg r) else .error .nullLeft
    | some l => do
      let lv ← evaluate m l x
      let rv ← evaluate m right x
      match c with
      | '+' => .ok (FloatV.add lv rv)
      | '-' => .ok (FloatV.sub lv rv)
      | '*' => .ok (FloatV.mul lv rv)
      | '/' =>
        if FloatV.eqv rv (.fin 0) then .error .divZero
        else .ok (FloatV.div lv rv)
      | '^' => .ok (m.pow lv rv)
      | _ => .error .unknownOp

/-- Claim C1: the claim states that `evaluate` never terminates the
process and in particular returns `NaN` on `Call(ln, Number(0))` and
`+inf` on `BinaryOp(Div, Number(1), Number(0))`.  The code instead
prints a diagnostic and exits with code 2 in both cases (the ln/log
domain check at `evaluator.c` lines 40-53 and the division-by-zero
check at lines 83-88): this theorem evaluates the embedded code at the
two failing inputs and shows both runs hit the exit branches, for every
math library and every variable value. -/
theorem claim_C1 (m : MathLib) (x : FloatV) :
    evaluate m (.func "ln" (.num 0)) x = .error .logNonPositive ∧
    evaluate m (.op '/' (some (.num 1)) (.num 0)) x = .error .divZero := by
  constructor <;> rfl

/-- The `Limits` struct from `limits.h` (four doubles, modelled exactly). -/
structure Limits where
  x_min : ℚ
  x_max : ℚ
  y_min : ℚ
  y_max : ℚ
deriving DecidableEq, Repr

/-- `PAGE_WIDTH` from `draw_utils.h`. -/
def PAGE_WIDTH : ℚ := 595

/-- `PAGE_HEIGHT` from `draw_utils.h`. -/
def PAGE_HEIGHT : ℚ := 842

/-- `PAGE_MARGIN` from `draw_utils.h`. -/
def PAGE_MARGIN : ℚ := 100

/-- `X_EVALUATION_STEP` from `draw_utils.h`. -/
def X_EVALUATION_STEP : ℚ := 1 / 100

/-- `scale_x` as computed at the top of `draw_graph` (`draw_utils.c`
line 310). -/
def scaleX (l : Limits) : ℚ := (PAGE_WIDTH - PAGE_MARGIN) / (l.x_max - l.x_min)

/-- `scale_y` as computed at the top of `draw_graph` (`draw_utils.c`
line 311). -/
def scaleY (l : Limits) : ℚ := (PAGE_HEIGHT - PAGE_MARGIN) / (l.y_max - l.y_min)

/-- `x_cords_for_y_axis` from `draw_graph` (`draw_utils.c` lines
315-322): device x-coordinate at which the vertical axis is drawn. -/
def xCordsForYAxis (l : Limits) : ℚ :=
  if l.x_min > 0 then l.x_min * scaleX l
  else if l.x_max < 0 then l.x_max * scaleX l
  else 0

/-- `y_cords_for_x_axis` from `draw_graph` (`draw_utils.c` lines
323-330): device y-coordinate at which the horizontal axis is drawn. -/
def yCordsForXAxis (l : Limits) : ℚ :=
  if l.y_min > 0 then l.y_min * scaleY l
  else if l.y_max < 0 then l.y_max * scaleY l
  else 0

/-- The path-building PostScript instructions emitted by the curve stage
of the renderer (`moveto`, `lineto`, `stroke`). -/
inductive Instr where
  | stroke
  | moveto (p : ℚ × ℚ)
  | lineto (p : ℚ × ℚ)
deriving DecidableEq, Repr

/-- Whether an instruction is a `stroke`. -/
def Instr.isStroke : Instr → Bool
  | stroke => true
  | _ => false

/-- Classification of one evaluated sample, in the order the branches of
`draw_function` test it: NaN first, then the range test, else
on-screen. -/
inductive SampleClass where
  | undef
  | offscreen
  | onscreen
deriving DecidableEq, Repr

/-- The classification performed by the branches of `draw_function`
(`draw_utils.c` lines 250-265). -/
def classify (l : Limits) (y : FloatV) : SampleClass :=
  if y.isnan then .undef
  else if FloatV.gt y (.fin l.y_max) || FloatV.lt y (.fin l.y_min) then .offscreen
  else .onscreen

/-- The finite value of a `FloatV`; only applied where the
`draw_function` branches guarantee the value is finite (NaN fails the
`isnan` test and the infinities fail the range test). -/
def FloatV.toQ : FloatV → ℚ
  | fin q => q
  | _ => 0

/-- The loop body of `draw_function` (`draw_utils.c` lines 247-276),
folded over the list of evaluated samples `(x, y)`.  The two `Bool`
flags are the C locals `first_point` and `out_of_range`; the emitted
instructions mirror the `fprintf` calls of the source. -/
def drawLoop (l : Limits) (sx sy : ℚ) :
    Bool → Bool → List (ℚ × FloatV) → List Instr
  | _, _, [] => []
  | firstPoint, outOfRange, (x, y) :: rest =>
    if y.isnan then
      (if firstPoint then [] else [Instr.stroke]) ++ drawLoop l sx sy true true rest
    else if FloatV.gt y (.fin l.y_max) || FloatV.lt y (.fin l.y_min) then
      if outOfRange then drawLoop l sx sy firstPoint outOfRange rest
      else Instr.stroke :: drawLoop l sx sy true true rest
    else
      (if firstPoint then Instr.moveto (x * sx, y.toQ * sy)
       else Instr.lineto (x * sx, y.toQ * sy)) :: drawLoop l sx sy false false rest

/-- `draw_function` run from its initial state (`first_point = 1`,
`out_of_range = 0`, `draw_utils.c` lines 245-246) on a list of
evaluated samples. -/
def drawFunctionSamples (l : Limits) (sx sy : ℚ)
    (samples : List (ℚ × FloatV)) : List Instr :=
  drawLoop l sx sy true false samples

/-- Claim C7: the vertical axis is placed at device x-coordinate 0 when
0 lies in `[x_min, x_max]`, at `x_min * scale_x` when `x_min > 0` and at
`x_max * scale_x` when `x_max < 0`, and the horizontal axis follows the
symmetric rule over `[y_min, y_max]` (`draw_graph`, `draw_utils.c`
lines 315-330). -/
theorem claim_C7 (l : Limits) (hx : l.x_min ≤ l.x_max) (hy : l.y_min ≤ l.y_max) :
    (l.x_min ≤ 0 → 0 ≤ l.x_max → xCordsForYAxis l = 0) ∧
    (0 < l.x_min → xCordsForYAxis l = l.x_min * scaleX l) ∧
    (l.x_max < 0 → xCordsForYAxis l = l.x_max * scaleX l) ∧
    (l.y_min ≤ 0 → 0 ≤ l.y_max → yCordsForXAxis l = 0) ∧
    (0 < l.y_min → yCordsForXAxis l = l.y_min * scaleY l) ∧
    (l.y_max < 0 → yCordsForXAxis l = l.y_max * scaleY l) := by
  refine ⟨fun h1 h2 => ?_, fun h1 => ?_, fun h1 => ?_,
          fun h1 h2 => ?_, fun h1 => ?_, fun h1 => ?_⟩ <;>
    simp only [xCordsForYAxis, yCordsForXAxis]
  · rw [if_neg (by linarith), if_neg (by linarith)]
  · rw [if_pos h1]
  · rw [if_neg (by linarith), if_pos h1]
  · rw [if_neg (by linarith), if_neg (by linarith)]
  · rw [if_pos h1]
  · rw [if_neg (by linarith), if_pos h1]

/-- Witness for claim C7 at the concrete limits `1:2:-3:-1` (a window
that excludes the origin on both axes). -/
theorem claim_C7_witness :
    xCordsForYAxis ⟨1, 2, -3, -1⟩ = 1 * scaleX ⟨1, 2, -3, -1⟩ ∧
    yCordsForXAxis ⟨1, 2, -3, -1⟩ = -1 * scaleY ⟨1, 2, -3, -1⟩ := by
  have h := claim_C7 ⟨1, 2, -3, -1⟩ (by norm_num) (by norm_num)
  exact ⟨h.2.1 (by norm_num), h.2.2.2.2.2 (by norm_num)⟩

/-- The transformed device point `(x * scale_x, y * scale_y)` emitted by
the in-range branch of `draw_function` (`draw_utils.c` lines 266-267). -/
def transformPoint (sx sy : ℚ) (s : ℚ × FloatV) : ℚ × ℚ :=
  (s.1 * sx, s.2.toQ * sy)

/-- Whether a sample is defined and inside `[y_min, y_max]`. -/
def onScreen (l : Limits) (s : ℚ × FloatV) : Bool :=
  classify l s.2 == SampleClass.onscreen

/-- Helper: `dropWhile` never lengthens a list. -/
theorem dropWhile_length_le {α : Type} (p : α → Bool) (xs : List α) :
    (xs.dropWhile p).length ≤ xs.length := by
  induction xs with
  | nil => simp [List.dropWhile]
  | cons a xs ih =>
    by_cases h : p a
    · simp only [List.dropWhile, h]
      exact le_trans ih (by simp)
    · simp [List.dropWhile, h]

/-- The maximal runs of consecutive on-screen samples, each mapped to
its transformed device points (specification-side description of the
polyline segments the claim talks about). -/
def inRangeRuns (l : Limits) (sx sy : ℚ) :
    List (ℚ × FloatV) → List (List (ℚ × ℚ))
  | [] => []
  | s :: rest =>
    if onScreen l s then
      (transformPoint sx sy s
        :: (rest.takeWhile (onScreen l)).map (transformPoint sx sy))
        :: inRangeRuns l sx sy (rest.dropWhile (onScreen l))
    else inRangeRuns l sx sy rest
termination_by samples => samples.length
decreasing_by
  · simp only [List.length_cons]
    exact Nat.lt_succ_of_le (dropWhile_length_le _ _)
  · simp

/-- Rendering of a list of polyline segments: each segment becomes one
`moveto` at its first point followed by one `lineto` per later point. -/
def segRender : List (List (ℚ × ℚ)) → List Instr
  | [] => []
  | seg :: rest =>
    (match seg with
      | [] => []
      | p :: ps => Instr.moveto p :: ps.map Instr.lineto) ++ segRender rest

/-- Key invariant of the curve state machine: the `moveto`/`lineto`
content of the stream emitted by `drawLoop` is exactly the canonical
rendering of the maximal on-screen runs.  First conjunct: from a state
with no open path (`first_point = 1`) and any `out_of_range` flag.
Second conjunct: from the in-run state (`first_point = 0`,
`out_of_range = 0`), where the pending run is first extended with
`lineto`s. -/
theorem drawLoop_filter_spec (l : Limits) (sx sy : ℚ)
    (samples : List (ℚ × FloatV)) :
    (∀ oor : Bool,
      (drawLoop l sx sy true oor samples).filter (fun i => !i.isStroke)
        = segRender (inRangeRuns l sx sy samples)) ∧
    ((drawLoop l sx sy false false samples).filter (fun i => !i.isStroke)
        = (samples.takeWhile (onScreen l)).map
            (fun s => Instr.lineto (transformPoint sx sy s))
          ++ segRender (inRangeRuns l sx sy (samples.dropWhile (onScreen l)))) := by
  induction samples with
  | nil =>
    constructor
    · intro oor
      simp [drawLoop, inRangeRuns, segRender]
    · simp [drawLoop, inRangeRuns, segRender]
  | cons s rest ih =>
    obtain ⟨x, y⟩ := s
    obtain ⟨ihA, ihB⟩ := ih
    by_cases hnan : y.isnan = true
    · have hscreen : onScreen l (x, y) = false := by
        simp [onScreen, classify, hnan]
      constructor
      · intro oor
        simpa [drawLoop, hnan, inRangeRuns, hscreen] using ihA true
      · simpa [drawLoop, hnan, inRangeRuns, hscreen, Instr.isStroke,
          List.takeWhile_cons, List.dropWhile_cons] using ihA true
    · by_cases hout :
        (FloatV.gt y (.fin l.y_max) || FloatV.lt y (.fin l.y_min)) = true
      · have hscreen : onScreen l (x, y) = false := by
          simp [onScreen, classify, hnan, hout]
        constructor
        · intro oor
          cases oor with
          | false =>
            simpa [drawLoop, hnan, hout, inRangeRuns, hscreen,
              Instr.isStroke] using ihA true
          | true =>
            simpa [drawLoop, hnan, hout, inRangeRuns, hscreen] using ihA true
        · simpa [drawLoop, hnan, hout, inRangeRuns, hscreen, Instr.isStroke,
            List.takeWhile_cons, List.dropWhile_cons] using ihA true
      · have hscreen : onScreen l (x, y) = true := by
          simp [onScreen, classify, hnan, hout]
        constructor
        · intro oor
          have hA : drawLoop l sx sy true oor ((x, y) :: rest)
              = Instr.moveto (x * sx, y.toQ * sy)
                :: drawLoop l sx sy false false rest := by
            simp [drawLoop, hnan, hout]
          have hR : inRangeRuns l sx sy ((x, y) :: rest)
              = ((x * sx, y.toQ * sy)
                  :: (rest.takeWhile (onScreen l)).map (transformPoint sx sy))
                :: inRangeRuns l sx sy (rest.dropWhile (onScreen l)) := by
            simp [inRangeRuns, hscreen, transformPoint]
          rw [hA, hR, List.filter_cons,
            if_pos (show (!(Instr.moveto (x * sx, y.toQ * sy)).isStroke) = true
              from rfl)]
          rw [ihB]
          simp [segRender, List.map_map, transformPoint, Function.comp]
        · have hA : drawLoop l sx sy false false ((x, y) :: rest)
              = Instr.lineto (x * sx, y.toQ * sy)
                :: drawLoop l sx sy false false rest := by
            simp [drawLoop, hnan, hout]
          have hT : ((x, y) :: rest).takeWhile (onScreen l)
              = (x, y) :: rest.takeWhile (onScreen l) := by
            simp [List.takeWhile_cons, hscreen]
          have hD : ((x, y) :: rest).dropWhile (onScreen l)
              = rest.dropWhile (onScreen l) := by
            simp [List.dropWhile_cons, hscreen]
          rw [hA, hT, hD, List.filter_cons,
            if_pos (show (!(Instr.lineto (x * sx, y.toQ * sy)).isStroke) = true
              from rfl)]
          rw [ihB]
          simp [transformPoint]

/-- Claim C2: in the instruction stream emitted by `draw_function`, each
maximal run of consecutive samples that are defined (not NaN) and inside
`[y_min, y_max]` produces exactly one `moveto` at the first sample of
the run followed by one `lineto` per later sample of the run, and no
`lineto` joins two samples separated by an undefined or out-of-range
sample: the `moveto`/`lineto` content of the stream is exactly the
canonical rendering of the maximal on-screen runs as disjoint polyline
segments.  Quantified over every limit window, both scale factors and
every sequence of evaluated samples (hence every AST). -/
theorem claim_C2 (l : Limits) (sx sy : ℚ) (samples : List (ℚ × FloatV)) :
    (drawFunctionSamples l sx sy samples).filter (fun i => !i.isStroke)
      = segRender (inRangeRuns l sx sy samples) :=
  (drawLoop_filter_spec l sx sy samples).1 false

/-- Whether the stream contains a `stroke` that is not preceded by any
`moveto`. -/
def hasStrokeBeforeMoveto : List Instr → Bool
  | [] => false
  | Instr.stroke :: _ => true
  | Instr.moveto _ :: _ => false
  | Instr.lineto _ :: rest => hasStrokeBeforeMoveto rest

/-- Helper: from the state `first_point = 1`, `out_of_range = 1` (the
state after any break), `drawLoop` never emits a stroke before the next
`moveto`. -/
theorem drawLoop_break_state_no_leading_stroke (l : Limits) (sx sy : ℚ)
    (samples : List (ℚ × FloatV)) :
    hasStrokeBeforeMoveto (drawLoop l sx sy true true samples) = false := by
  induction samples with
  | nil => rfl
  | cons s rest ih =>
    obtain ⟨x, y⟩ := s
    by_cases hnan : y.isnan = true
    · simpa [drawLoop, hnan] using ih
    · by_cases hout :
        (FloatV.gt y (.fin l.y_max) || FloatV.lt y (.fin l.y_min)) = true
      · simpa [drawLoop, hnan, hout] using ih
      · simp [drawLoop, hnan, hout, hasStrokeBeforeMoveto]

/-- Claim C8 (amended): in the undefined branch `draw_function` emits a
stroke only when a path is open, but the out-of-range branch emits a
stroke whenever the previous state was not flagged out-of-range,
including the initial state: starting from `first_point = 1`,
`out_of_range = 0`, the emitted stream contains a stroke before the
first `moveto` exactly when the first sample is defined and out of
range. -/
theorem claim_C8 (l : Limits) (sx sy : ℚ) (samples : List (ℚ × FloatV)) :
    hasStrokeBeforeMoveto (drawFunctionSamples l sx sy samples) = true ↔
      ∃ s rest, samples = s :: rest ∧
        classify l s.2 = SampleClass.offscreen := by
  cases samples with
  | nil => simp [drawFunctionSamples, drawLoop, hasStrokeBeforeMoveto]
  | cons s rest =>
    obtain ⟨x, y⟩ := s
    by_cases hnan : y.isnan = true
    · have hnostroke := drawLoop_break_state_no_leading_stroke l sx sy rest
      simp [drawFunctionSamples, drawLoop, hnan, hnostroke, classify]
    · by_cases hout :
        (FloatV.gt y (.fin l.y_max) || FloatV.lt y (.fin l.y_min)) = true
      · have hc : classify l y = SampleClass.offscreen := by
          unfold classify
          rw [if_neg (by simp [hnan]), if_pos hout]
        simp [drawFunctionSamples, drawLoop, hnan, hout,
          hasStrokeBeforeMoveto, hc]
      · have hc : classify l y = SampleClass.onscreen := by
          unfold classify
          rw [if_neg (by simp [hnan]), if_neg hout]
        simp [drawFunctionSamples, drawLoop, hnan, hout,
          hasStrokeBeforeMoveto, hc]

/-- Counterexample for claim C8 as stated: with limits `-10:10:-10:10`
and the constant function `20` (every sample defined but above
`y_max`), the very first sample takes the out-of-range branch with
`out_of_range = 0` and emits a stroke although no path is open — a
stroke with no preceding `moveto`. -/
theorem claim_C8_cex :
    hasStrokeBeforeMoveto
      (drawFunctionSamples ⟨-10, 10, -10, 10⟩ 1 1 [(-10, .fin 20)]) = true := by
  decide

/-- The loop of `are_brackets_balanced` (`src/lexer.c` lines 50-72).
The C stack of size `MAX_STACK_SIZE = 100` only ever has its top index
read, so the model carries the top index alone: push refuses when
`top == 99` (stack full), pop refuses when `top == -1` (empty), and the
function accepts when the stack ends empty. -/
def bracketsLoop (top : ℤ) : List Char → Bool
  | [] => top == -1
  | c :: rest =>
    if c = '(' then
      if top == 99 then false else bracketsLoop (top + 1) rest
    else if c = ')' then
      if top == -1 then false else bracketsLoop (top - 1) rest
    else bracketsLoop top rest

/-- `are_brackets_balanced` from `src/lexer.c` (C result `1` is `true`,
`0` is `false`). -/
def are_brackets_balanced (s : List Char) : Bool := bracketsLoop (-1) s

/-- Specification-side balance check, following the words of the claim:
every close has a matching, not-yet-closed prior open, and no opens
remain unclosed at the end.  `d` is the number of currently open
parentheses. -/
def balancedFrom (d : ℕ) : List Char → Bool
  | [] => d == 0
  | c :: rest =>
    if c = '(' then balancedFrom (d + 1) rest
    else if c = ')' then
      match d with
      | 0 => false
      | d' + 1 => balancedFrom d' rest
    else balancedFrom d rest

/-- Specification-side balance of a whole input. -/
def balancedSpec (s : List Char) : Bool := balancedFrom 0 s

/-- The maximal parenthesis nesting depth reached while scanning,
starting from `d` currently open parentheses. -/
def maxDepthFrom (d : ℕ) : List Char → ℕ
  | [] => d
  | c :: rest =>
    if c = '(' then maxDepthFrom (d + 1) rest
    else if c = ')' then max d (maxDepthFrom (d - 1) rest)
    else maxDepthFrom d rest

/-- Helper: the running maximum never drops below its start. -/
theorem le_maxDepthFrom : ∀ (s : List Char) (d : ℕ), d ≤ maxDepthFrom d s := by
  intro s
  induction s with
  | nil => intro d; simp [maxDepthFrom]
  | cons c rest ih =>
    intro d
    by_cases h1 : c = '('
    · have := ih (d + 1)
      simp only [maxDepthFrom, h1, if_pos]
      omega
    · by_cases h2 : c = ')'
      · simp [maxDepthFrom, h1, h2]
      · simp [maxDepthFrom, h1, h2, ih d]

/-- Helper: the C bracket check run with `d` items on its stack agrees
with the specification-side balance check at open count `d`, together
with the depth bound imposed by the 100-entry stack. -/
theorem bracketsLoop_spec : ∀ (s : List Char) (d : ℕ), d ≤ 100 →
    (bracketsLoop ((d : ℤ) - 1) s = true ↔
      (balancedFrom d s = true ∧ maxDepthFrom d s ≤ 100)) := by
  intro s
  induction s with
  | nil =>
    intro d hd
    simp only [bracketsLoop, balancedFrom, maxDepthFrom, beq_iff_eq]
    omega
  | cons c rest ih =>
    intro d hd
    by_cases h1 : c = '('
    · subst h1
      by_cases h100 : d = 100
      · have hmd := le_maxDepthFrom rest (d + 1)
        simp only [bracketsLoop, balancedFrom, maxDepthFrom, beq_iff_eq]
        simp [show ((d : ℤ) - 1 = 99) from by omega]
        intro hb
        omega
      · have hcast : ((d : ℤ) - 1) + 1 = ((d + 1 : ℕ) : ℤ) - 1 := by
          push_cast; ring
        simp only [bracketsLoop, balancedFrom, maxDepthFrom, beq_iff_eq]
        simp only [show ¬((d : ℤ) - 1 = 99) from by omega, if_false,
          ite_false, ite_true, if_pos, reduceIte]
        rw [hcast]
        exact ih (d + 1) (by omega)
    · by_cases h2 : c = ')'
      · subst h2
        cases d with
        | zero =>
          simp [bracketsLoop, balancedFrom, maxDepthFrom, beq_iff_eq]
        | succ d' =>
          have hsub : d' + 1 - 1 = d' := by omega
          simp only [bracketsLoop, balancedFrom, maxDepthFrom, beq_iff_eq]
          simp only [h1, show ¬(((d' + 1 : ℕ) : ℤ) - 1 = -1) from by omega,
            if_false, ite_false, ite_true, if_pos, reduceIte, hsub]
          try rw [show (((d' + 1 : ℕ) : ℤ) - 1) - 1 = ((d' : ℕ) : ℤ) - 1
            from by push_cast; ring]
          rw [ih d' (by omega)]
          constructor
          · rintro ⟨hb, hm⟩
            exact ⟨hb, by omega⟩
          · rintro ⟨hb, hm⟩
            exact ⟨hb, by omega⟩
      · simp only [bracketsLoop, balancedFrom, maxDepthFrom, h1, h2,
          Bool.false_eq_true, if_false, ite_false]
        exact ih d hd

/-- The `Lexer` struct from `lexer.h`: source text, scan cursor and the
character at the cursor. -/
structure Lexer where
  text : List Char
  pos : ℕ
  current_char : Char
deriving DecidableEq, Repr

/-- The fatal lexical errors of `src/lexer.c` (each prints a message and
exits the process with code 2). -/
inductive LexErr where
  | unbalancedBrackets
  | wrongFunctionInput
  | wrongExpUsage
  | identifierTooLong
  | unknownIdentifier
  | unknownCharacter
deriving DecidableEq, Repr

/-- `initialize_lexer` from `src/lexer.c` (lines 27-37): the bracket
balance of the whole input is checked before any token is produced;
imbalance is reported as the single bracket error (the C code prints it
and exits with code 2, modelled by `.error`).  The C reads `text[0]`
even for an empty string, obtaining the NUL terminator. -/
def initialize_lexer (text : List Char) : Except LexErr Lexer :=
  if are_brackets_balanced text then
    .ok ⟨text, 0, text.headD (Char.ofNat 0)⟩
  else .error .unbalancedBrackets

set_option maxRecDepth 8000 in
/-- Counterexample for claim C5 as stated: a balanced input whose
nesting depth exceeds the 100-entry stack of `are_brackets_balanced`
(101 opens followed by 101 closes) is balanced in the sense of the
claim, yet the function returns 0. -/
theorem claim_C5_cex :
    balancedSpec (List.replicate 101 '(' ++ List.replicate 101 ')') = true ∧
    are_brackets_balanced
      (List.replicate 101 '(' ++ List.replicate 101 ')') = false := by
  constructor
  · rfl
  · rfl

/-- Claim C5 (amended): `are_brackets_balanced` returns 1 exactly when
the parentheses are balanced AND the nesting depth never exceeds the
100 slots of its fixed stack (a balanced input of depth 101 is
rejected); `initialize_lexer` reports the imbalance as the single
bracket-balance error, before any token is produced. -/
theorem claim_C5 (s : List Char) :
    (are_brackets_balanced s = true ↔
      (balancedSpec s = true ∧ maxDepthFrom 0 s ≤ 100)) ∧
    (initialize_lexer s = .error .unbalancedBrackets ↔
      are_brackets_balanced s = false) := by
  constructor
  · have h := bracketsLoop_spec s 0 (by omega)
    simpa [are_brackets_balanced, balancedSpec] using h
  · by_cases hb : are_brackets_balanced s
    · simp [initialize_lexer, hb]
    · simp [initialize_lexer, hb]

/-- Token from `lexer.h` (payloads relevant to parsing).  `TOKEN_EOF` is
represented by the end of the token list. -/
inductive Token where
  | num (v : ℚ)
  | id (name : String)
  | func (name : String)
  | plus
  | minus
  | mul
  | div
  | pow
  | lparen
  | rparen
deriving DecidableEq, Repr

/-- The fatal parse errors of `src/parser.c` / `src/main.c` (each prints
a message and exits the process with code 2).  `fuel` is an artifact of
the fuel-based embedding of the mutual recursion; the drivers below
always supply enough fuel. -/
inductive PErr where
  | expectedLParen
  | expectedRParen
  | unexpectedToken
  | fuel
deriving DecidableEq, Repr

/-- The operator-token dispatch of the while loop of `parse_expr` in
`src/parser.c` (lines 24-38): all five operators at one level, in the
order of the if chain. -/
def opChar : Token → Option Char
  | .mul => some '*'
  | .div => some '/'
  | .pow => some '^'
  | .plus => some '+'
  | .minus => some '-'
  | _ => none

/-- The operator-token dispatch of the while loop of `parse_term` in
`src/main.c` (lines 284-294): only `*`, `/`, `^`. -/
def opCharTerm : Token → Option Char
  | .mul => some '*'
  | .div => some '/'
  | .pow => some '^'
  | _ => none

mutual
/-- `parse_factor` from `src/parser.c` (lines 69-118), over a token
list.  The C `lexer->pos--` pushback is modelled by returning the
unconsumed remainder of the list; fuel decreases at every nested call
and the drivers supply enough of it. -/
def parse_factor : ℕ → List Token → Except PErr (Node × List Token)
  | 0, _ => .error .fuel
  | _ + 1, [] => .error .unexpectedToken
  | fuel + 1, t :: ts =>
    match t with
    | .minus =>
      match parse_factor fuel ts with
      | .ok (r, ts1) => .ok (.op '-' none r, ts1)
      | .error e => .error e
    | .num v => .ok (.num v, ts)
    | .id name => .ok (.id name, ts)
    | .func name =>
      match ts with
      | .lparen :: ts1 =>
        match parse_expr fuel ts1 with
        | .ok (arg, ts2) =>
          match ts2 with
          | .rparen :: ts3 => .ok (.func name arg, ts3)
          | _ => .error .expectedRParen
        | .error e => .error e
      | _ => .error .expectedLParen
    | .lparen =>
      match parse_expr fuel ts with
      | .ok (n, ts2) =>
        match ts2 with
        | .rparen :: ts3 => .ok (n, ts3)
        | _ => .error .expectedRParen
      | .error e => .error e
    | _ => .error .unexpectedToken

/-- `parse_expr` from `src/parser.c` (lines 20-48): a factor followed by
ONE flat left-associative level treating `+ - * / ^` alike. -/
def parse_expr : ℕ → List Token → Except PErr (Node × List Token)
  | 0, _ => .error .fuel
  | fuel + 1, ts =>
    match parse_factor fuel ts with
    | .ok (n, ts1) => parse_expr_loop fuel n ts1
    | .error e => .error e

/-- The while loop of `parse_expr` in `src/parser.c` (lines 24-43);
stopping on a non-operator token models the pushback at lines 45-46. -/
def parse_expr_loop : ℕ → Node → List Token → Except PErr (Node × List Token)
  | 0, _, _ => .error .fuel
  | fuel + 1, n, ts =>
    match ts with
    | [] => .ok (n, [])
    | t :: ts1 =>
      match opChar t with
      | some c =>
        match parse_factor fuel ts1 with
        | .ok (r, ts2) => parse_expr_loop fuel (.op c (some n) r) ts2
        | .error e => .error e
      | none => .ok (n, ts)
end

mutual
/-- `parse_factor` from `src/main.c` (lines 223-275); identical shape to
the one in `parser.c` but recursing into the layered `parse_expr` of
`main.c`. -/
def mainc_parse_factor : ℕ → List Token → Except PErr (Node × List Token)
  | 0, _ => .error .fuel
  | _ + 1, [] => .error .unexpectedToken
  | fuel + 1, t :: ts =>
    match t with
    | .minus =>
      match mainc_parse_factor fuel ts with
      | .ok (r, ts1) => .ok (.op '-' none r, ts1)
      | .error e => .error e
    | .num v => .ok (.num v, ts)
    | .id name => .ok (.id name, ts)
    | .func name =>
      match ts with
      | .lparen :: ts1 =>
        match mainc_parse_expr fuel ts1 with
        | .ok (arg, ts2) =>
          match ts2 with
          | .rparen :: ts3 => .ok (.func name arg, ts3)
          | _ => .error .expectedRParen
        | .error e => .error e
      | _ => .error .expectedLParen
    | .lparen =>
      match mainc_parse_expr fuel ts with
      | .ok (n, ts2) =>
        match ts2 with
        | .rparen :: ts3 => .ok (n, ts3)
        | _ => .error .expectedRParen
      | .error e => .error e
    | _ => .error .unexpectedToken

/-- `parse_term` from `src/main.c` (lines 279-305): a factor followed by
a left-associative level of `* / ^`. -/
def mainc_parse_term : ℕ → List Token → Except PErr (Node × List Token)
  | 0, _ => .error .fuel
  | fuel + 1, ts =>
    match mainc_parse_factor fuel ts with
    | .ok (n, ts1) => mainc_parse_term_loop fuel n ts1
    | .error e => .error e

/-- The while loop of `parse_term` in `src/main.c` (lines 284-300). -/
def mainc_parse_term_loop : ℕ → Node → List Token → Except PErr (Node × List Token)
  | 0, _, _ => .error .fuel
  | fuel + 1, n, ts =>
    match ts with
    | [] => .ok (n, [])
    | t :: ts1 =>
      match opCharTerm t with
      | some c =>
        match mainc_parse_factor fuel ts1 with
        | .ok (r, ts2) => mainc_parse_term_loop fuel (.op c (some n) r) ts2
        | .error e => .error e
      | none => .ok (n, ts)

/-- `parse_expr` from `src/main.c` (lines 308-326): a term followed by a
left-associative level of `+ -`. -/
def mainc_parse_expr : ℕ → List Token → Except PErr (Node × List Token)
  | 0, _ => .error .fuel
  | fuel + 1, ts =>
    match mainc_parse_term fuel ts with
    | .ok (n, ts1) => mainc_parse_expr_loop fuel n ts1
    | .error e => .error e

/-- The while loop of `parse_expr` in `src/main.c` (lines 312-321). -/
def mainc_parse_expr_loop : ℕ → Node → List Token → Except PErr (Node × List Token)
  | 0, _, _ => .error .fuel
  | fuel + 1, n, ts =>
    match ts with
    | [] => .ok (n, [])
    | .plus :: ts1 =>
      match mainc_parse_term fuel ts1 with
      | .ok (r, ts2) => mainc_parse_expr_loop fuel (.op '+' (some n) r) ts2
      | .error e => .error e
    | .minus :: ts1 =>
      match mainc_parse_term fuel ts1 with
      | .ok (r, ts2) => mainc_parse_expr_loop fuel (.op '-' (some n) r) ts2
      | .error e => .error e
    | _ :: _ => .ok (n, ts)
end

/-- Counterexample for claim C3 as stated: the claim says `1+2*3`
parses as `Add(Number(1), Mul(Number(2), Number(3)))`, but `parse_expr`
in `src/parser.c` treats all five operators as ONE flat
left-associative level and yields `Mul(Add(1,2),3)`, which is a
different tree. -/
theorem claim_C3_cex :
    parse_expr 12 [Token.num 1, Token.plus, Token.num 2, Token.mul, Token.num 3]
      = .ok (Node.op '*'
          (some (Node.op '+' (some (Node.num 1)) (Node.num 2))) (Node.num 3),
          []) ∧
    Node.op '*' (some (Node.op '+' (some (Node.num 1)) (Node.num 2)))
        (Node.num 3)
      ≠ Node.op '+' (some (Node.num 1))
          (Node.op '*' (some (Node.num 2)) (Node.num 3)) := by
  refine ⟨rfl, ?_⟩
  intro h
  simp at h

/-- Claim C3 (amended): the layered parser of `src/main.c`
(`parse_expr` over `parse_term`) gives `* / ^` (one shared level)
higher precedence than `+ -`, parsing `1+2*3` as `Add(1, Mul(2,3))`;
the modular `src/parser.c` instead treats all five operators as a
single flat left-associative level, parsing `1+2*3` as
`Mul(Add(1,2),3)`.  In both parsers operators within one level
associate to the left: `2^3^2` parses as `Pow(Pow(2,3),2)` and `2*3^2`
as `Pow(Mul(2,3),2)`. -/
theorem claim_C3 :
    (mainc_parse_expr 12
        [Token.num 1, Token.plus, Token.num 2, Token.mul, Token.num 3]
      = .ok (Node.op '+' (some (Node.num 1))
          (Node.op '*' (some (Node.num 2)) (Node.num 3)), [])) ∧
    (parse_expr 12
        [Token.num 1, Token.plus, Token.num 2, Token.mul, Token.num 3]
      = .ok (Node.op '*'
          (some (Node.op '+' (some (Node.num 1)) (Node.num 2))) (Node.num 3),
          [])) ∧
    (parse_expr 12
        [Token.num 2, Token.pow, Token.num 3, Token.pow, Token.num 2]
      = .ok (Node.op '^'
          (some (Node.op '^' (some (Node.num 2)) (Node.num 3))) (Node.num 2),
          [])) ∧
    (mainc_parse_expr 12
        [Token.num 2, Token.pow, Token.num 3, Token.pow, Token.num 2]
      = .ok (Node.op '^'
          (some (Node.op '^' (some (Node.num 2)) (Node.num 3))) (Node.num 2),
          [])) ∧
    (parse_expr 12
        [Token.num 2, Token.mul, Token.num 3, Token.pow, Token.num 2]
      = .ok (Node.op '^'
          (some (Node.op '*' (some (Node.num 2)) (Node.num 3))) (Node.num 2),
          [])) ∧
    (mainc_parse_expr 12
        [Token.num 2, Token.mul, Token.num 3, Token.pow, Token.num 2]
      = .ok (Node.op '^'
          (some (Node.op '*' (some (Node.num 2)) (Node.num 3))) (Node.num 2),
          [])) :=
  ⟨rfl, rfl, rfl, rfl, rfl, rfl⟩

/-- Errors of the top-level parse driver. -/
inductive DriverErr where
  | parseFailed (e : PErr)
  | trailingInput
deriving DecidableEq, Repr

/-- Modelled from the spec: the top-level driver that runs the parser
and then rejects trailing unconsumed input is code of this repository
that is not under `src/` (the modular pipeline has no `main` there;
`err.h` only declares its error vocabulary).  Following the spec
sentence, after the top-level `expr` is parsed the whole token stream
must have been consumed, and any trailing input is an invalid
expression error.  Fuel `2 * length + 2` dominates the recursion depth
of the parser, which consumes at least one token between successive
fuel levels in any non-failing run. -/
def parseProgram (ts : List Token) : Except DriverErr Node :=
  match parse_expr (2 * ts.length + 2) ts with
  | .error e => .error (.parseFailed e)
  | .ok (n, rest) => if rest.isEmpty then .ok n else .error .trailingInput

/-- Claim C4 (spec-modelled driver): the driver accepts exactly the
runs in which the parser consumed the entire token stream, reports any
trailing unconsumed input as the invalid-expression error, and in
particular rejects the streams of `2 3` and `(1)2`. -/
theorem claim_C4 (ts : List Token) :
    (∀ n, parseProgram ts = .ok n →
        parse_expr (2 * ts.length + 2) ts = .ok (n, [])) ∧
    (∀ n rest, parse_expr (2 * ts.length + 2) ts = .ok (n, rest) →
        rest ≠ [] → parseProgram ts = .error .trailingInput) ∧
    parseProgram [Token.num 2, Token.num 3] = .error .trailingInput ∧
    parseProgram [Token.lparen, Token.num 1, Token.rparen, Token.num 2]
      = .error .trailingInput := by
  refine ⟨?_, ?_, rfl, rfl⟩
  · intro n h
    unfold parseProgram at h
    cases hp : parse_expr (2 * ts.length + 2) ts with
    | error e => rw [hp] at h; simp at h
    | ok p =>
      obtain ⟨n1, rest⟩ := p
      rw [hp] at h
      by_cases hr : rest.isEmpty
      · rw [List.isEmpty_iff] at hr
        subst hr
        simp_all
      · simp [hr] at h
  · intro n rest hp hne
    unfold parseProgram
    rw [hp]
    simp [List.isEmpty_iff, hne]

/-- Witness for claim C4: the stream of `2 3` parses its first token
and leaves `3` unconsumed, so the driver reports trailing input. -/
theorem claim_C4_witness :
    parseProgram [Token.num 2, Token.num 3] = .error .trailingInput :=
  (claim_C4 [Token.num 2, Token.num 3]).2.1 (Node.num 2) [Token.num 3]
    rfl (by simp)

/-- The thirteen function names recognized by `process_identifier`
(`src/lexer.c` lines 208-224) and dispatched by `evaluate`. -/
def recognizedFunctions : List String :=
  ["cos", "sin", "tan", "abs", "ln", "log", "asin", "acos", "atan",
   "sinh", "cosh", "tanh", "exp"]

/-- `process_identifier` from `src/lexer.c` (lines 195-230): scans a
run of letters (storing at most 63 of them, so the stored length
saturates at 63), rejects a stored length of 10 or more, classifies
`x` as the variable token and the thirteen recognized names as
function tokens, and reports anything else as an unknown identifier. -/
def process_identifier (input : List Char) :
    Except LexErr (Token × List Char) :=
  let letters := input.takeWhile (fun c => c.isAlpha)
  let rest := input.dropWhile (fun c => c.isAlpha)
  let kept := letters.take 63
  let name := String.mk kept
  if 10 ≤ kept.length then .error .identifierTooLong
  else if name = "x" then .ok (Token.id name, rest)
  else if name ∈ recognizedFunctions then .ok (Token.func name, rest)
  else .error .unknownIdentifier

/-- A token stream in which every function token carries one of the
thirteen recognized names — the shape of every stream the lexer can
produce (see the `process_identifier` conjunct of claim C10). -/
def GoodToks (ts : List Token) : Prop :=
  ∀ name, Token.func name ∈ ts → name ∈ recognizedFunctions

/-- The structural invariant of parser-produced ASTs stated by claim
C10: every operator node carries one of the five operator characters, a
NULL left child occurs only on a unary minus, and every function node
carries a recognized name. -/
def WFNode : Node → Prop
  | .num _ => True
  | .id _ => True
  | .func name arg => name ∈ recognizedFunctions ∧ WFNode arg
  | .op c none right => c = '-' ∧ WFNode right
  | .op c (some l) right =>
    c ∈ ['+', '-', '*', '/', '^'] ∧ WFNode l ∧ WFNode right

/-- Helper: a suffix of a good token stream is good. -/
theorem GoodToks.mono {ts ts' : List Token} (h : GoodToks ts)
    (hs : List.IsSuffix ts' ts) : GoodToks ts' :=
  fun name hm => h name (hs.subset hm)

/-- Helper: a good stream stays good after dropping its head. -/
theorem GoodToks.tail {t : Token} {ts : List Token}
    (h : GoodToks (t :: ts)) : GoodToks ts :=
  h.mono (List.suffix_cons t ts)

/-- Helper: every AST produced by the `parser.c` parser from a good
token stream is well-formed, and the unconsumed remainder is always a
suffix of the input stream. -/
theorem parse_wf : ∀ (fuel : ℕ),
    (∀ ts n rest, GoodToks ts → parse_factor fuel ts = .ok (n, rest) →
        WFNode n ∧ List.IsSuffix rest ts) ∧
    (∀ ts n rest, GoodToks ts → parse_expr fuel ts = .ok (n, rest) →
        WFNode n ∧ List.IsSuffix rest ts) ∧
    (∀ acc ts n rest, GoodToks ts → WFNode acc →
        parse_expr_loop fuel acc ts = .ok (n, rest) →
        WFNode n ∧ List.IsSuffix rest ts) := by
  intro fuel
  induction fuel with
  | zero =>
    refine ⟨?_, ?_, ?_⟩ <;> intros <;>
      simp_all [parse_factor, parse_expr, parse_expr_loop]
  | succ fuel ih =>
    obtain ⟨ihF, ihE, ihL⟩ := ih
    refine ⟨?_, ?_, ?_⟩
    · intro ts n rest hg hp
      cases ts with
      | nil => simp [parse_factor] at hp
      | cons t ts1 =>
        cases t with
        | num v =>
          simp only [parse_factor, Except.ok.injEq, Prod.mk.injEq] at hp
          obtain ⟨hn, hr⟩ := hp
          subst hn; subst hr
          exact ⟨trivial, List.suffix_cons _ _⟩
        | id name =>
          simp only [parse_factor, Except.ok.injEq, Prod.mk.injEq] at hp
          obtain ⟨hn, hr⟩ := hp
          subst hn; subst hr
          exact ⟨trivial, List.suffix_cons _ _⟩
        | minus =>
          simp only [parse_factor] at hp
          cases hres : parse_factor fuel ts1 with
          | error e => rw [hres] at hp; simp at hp
          | ok p =>
            obtain ⟨r, ts2⟩ := p
            rw [hres] at hp
            simp only [Except.ok.injEq, Prod.mk.injEq] at hp
            obtain ⟨hn, hr⟩ := hp
            subst hn; subst hr
            have hh := ihF ts1 r ts2 hg.tail hres
            exact ⟨⟨rfl, hh.1⟩, hh.2.trans (List.suffix_cons _ _)⟩
        | func name =>
          simp only [parse_factor] at hp
          split at hp
          · split at hp
            · split at hp
              · rename_i ts0 ts1x xr arg ts2x ts3x heq
                simp only [Except.ok.injEq, Prod.mk.injEq] at hp
                obtain ⟨hn, hr⟩ := hp
                have hh := ihE ts1x arg (Token.rparen :: ts3x)
                  (hg.tail.tail) heq
                refine ⟨hn ▸ ⟨hg name (List.mem_cons_self _ _), hh.1⟩, ?_⟩
                exact hr ▸ ((((List.suffix_cons _ _).trans hh.2).trans
                  (List.suffix_cons _ _)).trans (List.suffix_cons _ _))
              · simp at hp
            · simp at hp
          · simp at hp
        | lparen =>
          simp only [parse_factor] at hp
          split at hp
          · split at hp
            · rename_i xr inner ts2x ts3x heq
              simp only [Except.ok.injEq, Prod.mk.injEq] at hp
              obtain ⟨hn, hr⟩ := hp
              have hh := ihE ts1 inner (Token.rparen :: ts3x) hg.tail heq
              exact ⟨hn ▸ hh.1, hr ▸ (((List.suffix_cons _ _).trans hh.2).trans
                (List.suffix_cons _ _))⟩
            · simp at hp
          · simp at hp
        | plus => simp [parse_factor] at hp
        | mul => simp [parse_factor] at hp
        | div => simp [parse_factor] at hp
        | pow => simp [parse_factor] at hp
        | rparen => simp [parse_factor] at hp
    · intro ts n rest hg hp
      simp only [parse_expr] at hp
      cases hres : parse_factor fuel ts with
      | error e => rw [hres] at hp; simp at hp
      | ok p =>
        obtain ⟨n1, ts1⟩ := p
        rw [hres] at hp
        simp only [] at hp
        have hf := ihF ts n1 ts1 hg hres
        have hl := ihL n1 ts1 n rest (hg.mono hf.2) hf.1 hp
        exact ⟨hl.1, hl.2.trans hf.2⟩
    · intro acc ts n rest hg hacc hp
      cases ts with
      | nil =>
        simp only [parse_expr_loop, Except.ok.injEq, Prod.mk.injEq] at hp
        obtain ⟨hn, hr⟩ := hp
        subst hn; subst hr
        exact ⟨hacc, List.suffix_rfl⟩
      | cons t ts1 =>
        simp only [parse_expr_loop] at hp
        cases ho : opChar t with
        | none =>
          rw [ho] at hp
          simp only [Except.ok.injEq, Prod.mk.injEq] at hp
          obtain ⟨hn, hr⟩ := hp
          subst hn; subst hr
          exact ⟨hacc, List.suffix_rfl⟩
        | some c =>
          rw [ho] at hp
          cases hres : parse_factor fuel ts1 with
          | error e => rw [hres] at hp; simp at hp
          | ok p =>
            obtain ⟨r, ts2⟩ := p
            rw [hres] at hp
            simp only [] at hp
            have hf := ihF ts1 r ts2 hg.tail hres
            have hcmem : c ∈ ['+', '-', '*', '/', '^'] := by
              cases t <;> simp [opChar] at ho <;> subst ho <;> decide
            have hwfop : WFNode (.op c (some acc) r) := ⟨hcmem, hacc, hf.1⟩
            have hl := ihL (.op c (some acc) r) ts2 n rest
              ((hg.tail).mono hf.2) hwfop hp
            exact ⟨hl.1, hl.2.trans (hf.2.trans (List.suffix_cons _ _))⟩

/-- Monad-bind reduction for `Except`, on an `ok` result. -/
theorem except_bind_ok {ε α β : Type} (a : α) (f : α → Except ε β) :
    (Except.ok a : Except ε α) >>= f = f a := rfl

/-- Monad-bind reduction for `Except`, on an `error` result. -/
theorem except_bind_error {ε α β : Type} (e : ε) (f : α → Except ε β) :
    (Except.error e : Except ε α) >>= f = .error e := rfl

/-- Helper (size-bounded recursion): on a well-formed AST, the only exit
branches `evaluate` can take are the two domain checks — the
unknown-function, unknown-operator and NULL-dereference branches are
unreachable. -/
theorem evaluate_wf_err_aux (m : MathLib) :
    ∀ (k : ℕ) (n : Node), sizeOf n ≤ k → WFNode n →
      ∀ (x : FloatV) (e : EvalErr), evaluate m n x = .error e →
        e = .logNonPositive ∨ e = .divZero := by
  intro k
  induction k with
  | zero =>
    intro n hs
    cases n <;> simp at hs
  | succ k ih =>
    intro n hs hwf x e h
    cases n with
    | num v => simp [evaluate] at h
    | id nm => simp [evaluate] at h
    | func name arg =>
      obtain ⟨hname, harg⟩ := hwf
      have hsz : sizeOf arg ≤ k := by
        have hspec := Node.func.sizeOf_spec name arg
        omega
      cases ha : evaluate m arg x with
      | error e2 =>
        simp only [evaluate] at h
        rw [ha] at h
        rw [except_bind_error] at h
        simp only [Except.error.injEq] at h
        exact h ▸ ih arg hsz harg x e2 ha
      | ok a =>
        simp only [recognizedFunctions, List.mem_cons,
          List.not_mem_nil, or_false] at hname
        simp only [evaluate] at h
        rw [ha] at h
        rw [except_bind_ok] at h
        rcases hname with rfl|rfl|rfl|rfl|rfl|rfl|rfl|rfl|rfl|rfl|rfl|rfl|rfl <;>
          simp at h <;>
          (try (split at h <;> simp_all))
    | op c left right =>
      cases left with
      | none =>
        obtain ⟨hc, hrwf⟩ := hwf
        subst hc
        have hsz : sizeOf right ≤ k := by
          have hspec := Node.op.sizeOf_spec '-' none right
          omega
        cases ha : evaluate m right x with
        | error e2 =>
          simp only [evaluate] at h
          rw [ha] at h
          rw [except_bind_error] at h
          simp only [Except.error.injEq] at h
          exact h ▸ ih right hsz hrwf x e2 ha
        | ok a =>
          simp only [evaluate] at h
          rw [ha] at h
          rw [except_bind_ok] at h
          simp at h
      | some l =>
        obtain ⟨hc, hlwf, hrwf⟩ := hwf
        have hszl : sizeOf l ≤ k := by
          have hspec := Node.op.sizeOf_spec c (some l) right
          have hspec2 : sizeOf (some l) = 1 + sizeOf l := by simp
          omega
        have hszr : sizeOf right ≤ k := by
          have hspec := Node.op.sizeOf_spec c (some l) right
          omega
        cases hal : evaluate m l x with
        | error e2 =>
          simp only [evaluate] at h
          rw [hal] at h
          rw [except_bind_error] at h
          simp only [Except.error.injEq] at h
          exact h ▸ ih l hszl hlwf x e2 hal
        | ok lv =>
          cases har : evaluate m right x with
          | error e2 =>
            simp only [evaluate] at h
            rw [hal] at h
            rw [except_bind_ok] at h
            rw [har] at h
            rw [except_bind_error] at h
            simp only [Except.error.injEq] at h
            exact h ▸ ih right hszr hrwf x e2 har
          | ok rv =>
            simp only [List.mem_cons, List.not_mem_nil, or_false] at hc
            simp only [evaluate] at h
            rw [hal] at h
            rw [except_bind_ok] at h
            rw [har] at h
            rw [except_bind_ok] at h
            rcases hc with rfl|rfl|rfl|rfl|rfl <;>
              simp at h <;>
              (try (split at h <;> simp_all))

/-- Helper: packaged form of the size-bounded lemma. -/
theorem evaluate_wf_err (m : MathLib) (n : Node) (hwf : WFNode n)
    (x : FloatV) (e : EvalErr) (h : evaluate m n x = .error e) :
    e = .logNonPositive ∨ e = .divZero :=
  evaluate_wf_err_aux m (sizeOf n) n le_rfl hwf x e h

/-- Claim C10: every AST returned by `parse_expr`/`parse_factor` (from
a token stream whose function tokens carry lexer-approved names, which
is all `process_identifier` can produce) satisfies the structural
invariant `WFNode` — tags are among the four node kinds by
construction, every operator node carries one of `+ - * / ^`, a NULL
left child occurs only on a unary minus, and every function node
carries one of the thirteen recognized names — and consequently the
only exit branches `evaluate` can take on such a tree are the two
domain checks: the unknown-function, unknown-binary-operator and
unknown-node-type exits are unreachable. -/
theorem claim_C10 :
    (∀ input name rest,
        process_identifier input = .ok (Token.func name, rest) →
        name ∈ recognizedFunctions) ∧
    (∀ fuel ts n rest, GoodToks ts →
        parse_factor fuel ts = .ok (n, rest) → WFNode n) ∧
    (∀ fuel ts n rest, GoodToks ts →
        parse_expr fuel ts = .ok (n, rest) → WFNode n) ∧
    (∀ (m : MathLib) (n : Node), WFNode n → ∀ x e,
        evaluate m n x = .error e →
        e = .logNonPositive ∨ e = .divZero) := by
  refine ⟨?_, ?_, ?_, ?_⟩
  · intro input name rest h
    simp only [process_identifier] at h
    split at h
    · simp at h
    · split at h
      · simp at h
      · split at h
        · rename_i hmem
          simp only [Except.ok.injEq, Prod.mk.injEq, Token.func.injEq] at h
          obtain ⟨hn, _⟩ := h
          exact hn ▸ hmem
        · simp at h
  · intro fuel ts n rest hg hp
    exact ((parse_wf fuel).1 ts n rest hg hp).1
  · intro fuel ts n rest hg hp
    exact ((parse_wf fuel).2.1 ts n rest hg hp).1
  · intro m n hwf x e h
    exact evaluate_wf_err m n hwf x e h

/-- Witness for claim C10: the stream of `sin(x)` is lexer-approved and
parses to the tree `Call(sin, Variable)`, which the theorem shows
well-formed. -/
theorem claim_C10_witness : WFNode (Node.func "sin" (Node.id "x")) :=
  (claim_C10).2.2.1 10
    [Token.func "sin", Token.lparen, Token.id "x", Token.rparen]
    (Node.func "sin" (Node.id "x")) []
    (by
      intro nm hm
      simp only [List.mem_cons, List.not_mem_nil, or_false,
        Token.func.injEq] at hm
      simp_all [recognizedFunctions])
    rfl

attribute [local semireducible] Rat.mul Rat.add Rat.sub Rat.inv

set_option maxRecDepth 20000

/-- Floor of the base-2 logarithm of a natural number, by fuel-indexed
halving (the fuel `n` dominates the recursion depth `log2 n`). -/
def natLog2Aux : ℕ → ℕ → ℕ
  | 0, _ => 0
  | fuel + 1, n => if 2 ≤ n then natLog2Aux fuel (n / 2) + 1 else 0

/-- Floor of the base-2 logarithm (0 on 0 and 1). -/
def natLog2 (n : ℕ) : ℕ := natLog2Aux n n

/-- `2 ^ n` as a rational, computed in `ℕ`. -/
def pow2q (n : ℕ) : ℚ := ((2 ^ n : ℕ) : ℚ)

/-- `2 ^ z` as a rational, for an integer exponent. -/
def qpow2 (z : ℤ) : ℚ := if 0 ≤ z then pow2q z.toNat else 1 / pow2q (-z).toNat

/-- Exponent of the leading binary digit of a positive rational
(`2 ^ e ≤ q < 2 ^ (e + 1)`).  The bit-length estimate
`e0 = floorLog2 num - floorLog2 den` satisfies
`2 ^ (e0 - 1) < q < 2 ^ (e0 + 1)`, so a single comparison corrects it. -/
def qFloorLog2 (q : ℚ) : ℤ :=
  let e0 : ℤ := (natLog2 q.num.natAbs : ℤ) - (natLog2 q.den : ℤ)
  if qpow2 e0 ≤ q then e0 else e0 - 1

/-- IEEE-754 round-to-nearest, ties-to-even, of a nonnegative rational
to 53 significant bits (binary64), on the normal range: the input is
scaled by `2 ^ k` into `[2 ^ 52, 2 ^ 53)`, rounded to the nearest
integer (ties to the even integer) and scaled back.  Subnormal
underflow and overflow to infinity are not modelled: every value the
sampling-loop theorems evaluate this on has magnitude between `2 ^ (-8)`
and `2 ^ 48`, far inside the normal range. -/
def roundPos (q : ℚ) : ℚ :=
  if q = 0 then 0
  else
    let e := qFloorLog2 q
    let k : ℤ := 52 - e
    let n : ℤ := q.num * (if 0 ≤ k then ((2 ^ k.toNat : ℕ) : ℤ) else 1)
    let d : ℤ := (q.den : ℤ) * (if 0 ≤ k then 1 else ((2 ^ (-k).toNat : ℕ) : ℤ))
    let m0 := n / d
    let r := n % d
    let m := if 2 * r < d then m0
             else if d < 2 * r then m0 + 1
             else if m0 % 2 = 0 then m0 else m0 + 1
    (m : ℚ) * qpow2 (-k)

/-- Binary64 rounding of a rational (round-to-nearest even is symmetric
in the sign). -/
def roundF64 (q : ℚ) : ℚ := if q < 0 then -roundPos (-q) else roundPos q

/-- The exact value of the C `double` literal `0.01`
(`X_EVALUATION_STEP` as stored in binary64): `0.01` is not
representable, the nearest double is `5764607523034235 * 2 ^ (-59)`. -/
def STEP64 : ℚ := 5764607523034235 / 576460752303423488

/-- Binary64 addition: IEEE-754 requires the correctly rounded exact
sum. -/
def fp64Add (x y : ℚ) : ℚ := roundF64 (x + y)

/-- The sampling loop of `draw_function` (`draw_utils.c` line 247,
`for (double x = x_min; x <= x_max; x += X_EVALUATION_STEP)`) at
binary64 semantics, fuel-indexed with an iteration counter: `some n`
means the loop exits after exactly `n` iterations (within the fuel);
`none` means it has not exited after `fuel` iterations.  The `<=`
comparison on representable doubles is exact, so `ℚ` order coincides
with the C comparison. -/
def sampleCountFpAux : ℕ → ℚ → ℚ → ℕ → Option ℕ
  | 0, _, _, _ => none
  | fuel + 1, xMax, x, acc =>
    if x ≤ xMax then sampleCountFpAux fuel xMax (fp64Add x STEP64) (acc + 1)
    else some acc

/-- The loop of `draw_function`, started at `x` with no iterations
performed yet. -/
def sampleCountFp (fuel : ℕ) (xMax x : ℚ) : Option ℕ :=
  sampleCountFpAux fuel xMax x 0

/-- Validation of the rounding model: rounding the rational `1/100`
yields exactly the binary64 literal `0.01`. -/
theorem roundF64_hundredth : roundF64 (1 / 100) = STEP64 := by decide

/-- Validation of the rounding model: `0.01 + 0.01` in binary64 is
exactly `5764607523034235 * 2 ^ (-58)` (the double printed `0.02`). -/
theorem fp64Add_step_step :
    fp64Add STEP64 STEP64 = 5764607523034235 / 288230376151711744 := by
  decide

/-- Helper: once the loop variable is a fixpoint of the binary64
increment (the step is absorbed) and still within the bound, the loop
never exits, whatever the fuel or iteration count so far. -/
theorem sampleCountFpAux_fix (xMax x : ℚ) (hle : x ≤ xMax)
    (hfix : fp64Add x STEP64 = x) :
    ∀ fuel acc, sampleCountFpAux fuel xMax x acc = none := by
  intro fuel
  induction fuel with
  | zero => intro acc; rfl
  | succ fuel ih =>
    intro acc
    simp only [sampleCountFpAux]
    rw [if_pos hle, hfix]
    exact ih (acc + 1)

/-- Helper: packaged form for the loop started with counter 0. -/
theorem sampleCountFp_fix (xMax x : ℚ) (hle : x ≤ xMax)
    (hfix : fp64Add x STEP64 = x) :
    ∀ fuel, sampleCountFp fuel xMax x = none :=
  fun fuel => sampleCountFpAux_fix xMax x hle hfix fuel 0

/-- Counterexample for claim C9 as stated: the claim makes the
iteration count a function of `(x_max - x_min) / step` alone, but two
windows of the same width `x_max - x_min = 1` run a different number of
iterations under binary64 accumulation — 100 iterations from 0, 129
iterations from `2 ^ 45` (where the rounded increment is a multiple of
the larger ulp).  All bounds are exactly representable doubles. -/
theorem claim_C9_cex :
    sampleCountFp 150 1 0 = some 100 ∧
    sampleCountFp 150 35184372088833 35184372088832 = some 129 ∧
    (1 : ℚ) - 0 = 35184372088833 - 35184372088832 ∧
    (100 : ℕ) ≠ 129 := by
  exact ⟨by decide, by decide, by decide, by decide⟩

/-- Claim C9 (amended): the loop of `draw_function` accumulates a
binary64 `x` by the double nearest `0.01`, so its iteration count is
given by binary64 accumulation, not by `(x_max - x_min) / step`: the
window 0..1 runs 100 iterations although `(x_max - x_min) / step + 1`
is 101, the equal-width window `2 ^ 45`..`2 ^ 45 + 1` runs 129, and
the loop fails to terminate on finite ordered bounds once the
increment is absorbed: at `x_min = x_max = 2 ^ 47` the rounded sum
`x + 0.01` equals `x` (half an ulp exceeds the step there), so for
every fuel the loop has not exited. -/
theorem claim_C9 :
    sampleCountFp 150 1 0 = some 100 ∧
    ((1 : ℚ) - 0) / X_EVALUATION_STEP + 1 = 101 ∧
    sampleCountFp 150 35184372088833 35184372088832 = some 129 ∧
    fp64Add 140737488355328 STEP64 = 140737488355328 ∧
    (∀ fuel, sampleCountFp fuel 140737488355328 140737488355328 = none) := by
  refine ⟨by decide, by decide, by decide, by decide, ?_⟩
  exact sampleCountFp_fix 140737488355328 140737488355328 le_rfl (by decide)
